import Mathlib

/-!
Verification development for the commit-graph construction and layout engine
of a desktop Git client.  The definitions below are a shallow embedding of
`src/git/commit.rs` (`CommitInfo`, `CommitGraphData::build`,
`CommitGraphData::layout_graph`) and `src/state/git_state.rs`
(`GitState::search_commits`).  Strings are modelled by Lean `String`
(commit ids are 40 ASCII hex characters, so Rust byte slicing and
lowercasing agree with the character-level model); Rust `HashMap`s are
modelled by association lists whose `insert` prepends (so lookups see the
most recent binding, exactly like `HashMap::insert` overwriting); the
growable `Vec<Option<String>>` lane table is a `List (Option String)`.
-/

namespace Awabancha

/-- Lowercasing of a string, modelling Rust `str::to_lowercase` on the
ASCII data that appears in commit ids and search queries. -/
def lowerStr (s : String) : String := ⟨s.data.map Char.toLower⟩

/-- Substring containment, modelling Rust `str::contains(&str)`. -/
def strContainsSub (s pat : String) : Bool :=
  s.data.tails.any (fun t => pat.data.isPrefixOf t)

/-- Test whether `s` starts with `pat`, modelling Rust `str::starts_with`. -/
def strStartsWith (s pat : String) : Bool := pat.data.isPrefixOf s.data

/-- Association-list multimap insert, modelling
`map.entry(oid).or_default().push(name)`: append `v` to the list bound to
`k`, creating the binding when absent. -/
def mmInsert (m : List (String × List String)) (k v : String) :
    List (String × List String) :=
  match m with
  | [] => [(k, [v])]
  | (k', vs) :: rest =>
      if k' = k then (k', vs ++ [v]) :: rest else (k', vs) :: mmInsert rest k v

/-- Multimap lookup, modelling `map.get(&oid).cloned().unwrap_or_default()`. -/
def mmLookup (m : List (String × List String)) (k : String) : List String :=
  (List.lookup k m).getD []

/-- Maximum of a list of naturals, `0` for the empty list. -/
def maxList (l : List Nat) : Nat := l.foldr max 0

/-- Raw commit data as obtained from the backend's `lookup_commit`:
id, optional summary line, optional author name and email, commit time,
and the ordered parent id list (modelling the `git2::Commit` fields read
by `CommitInfo::from_commit`). -/
structure RawCommit where
  sha : String
  message : Option String
  author : Option String
  email : Option String
  time : Int
  parents : List String
deriving DecidableEq

/-- Commit information record, from `CommitInfo` in `src/git/commit.rs`. -/
structure CommitInfo where
  sha : String
  short_sha : String
  message : String
  author : String
  email : String
  time : Int
  parents : List String
  branch : Option String
  branches : List String
  remotes : List String
  tags : List String
deriving DecidableEq

/-- Construction of a `CommitInfo` from a raw commit and the three
reference maps, from `CommitInfo::from_commit`.  The short id is the first
7 characters of the 40-character hex id. -/
def CommitInfo.from_commit (c : RawCommit)
    (branches_map remotes_map tags_map : List (String × List String)) :
    CommitInfo :=
  let branches := mmLookup branches_map c.sha
  { sha := c.sha
    short_sha := ⟨c.sha.data.take 7⟩
    message := c.message.getD ""
    author := c.author.getD "Unknown"
    email := c.email.getD ""
    time := c.time
    parents := c.parents
    branch := branches.head?
    branches := branches
    remotes := mmLookup remotes_map c.sha
    tags := mmLookup tags_map c.sha }

/-- Edge classification, from `EdgeType` in `src/git/commit.rs`. -/
inductive EdgeType where
  | Linear
  | Branch
  | Merge
deriving DecidableEq

/-- Edge in the commit graph, from `GraphEdge` in `src/git/commit.rs`. -/
structure GraphEdge where
  from_sha : String
  to_sha : String
  from_column : Nat
  to_column : Nat
  from_row : Nat
  to_row : Nat
  color : Nat
  edge_type : EdgeType
deriving DecidableEq

/-- Node in the commit graph, from `GraphNode` in `src/git/commit.rs`. -/
structure GraphNode where
  commit : CommitInfo
  column : Nat
  row : Nat
  color : Nat
deriving DecidableEq

/-- Complete commit graph data, from `CommitGraphData`. -/
structure CommitGraphData where
  nodes : List GraphNode
  edges : List GraphEdge
  max_column : Nat
deriving DecidableEq

/-- The 8-color lane palette `COLORS` from `layout_graph`. -/
def COLORS : List Nat :=
  [0x89b4fa, 0xa6e3a1, 0xf9e2af, 0xfab387, 0xf38ba8, 0xcba6f7, 0x94e2d5, 0xf5c2e7]

/-- Palette color of a column: `COLORS[column % COLORS.len()]`. -/
def colorOf (column : Nat) : Nat := COLORS.getD (column % COLORS.length) 0

/-- Mutable state threaded through `layout_graph`: the accumulated nodes,
edges and running maximum column, the lane table `active_columns`, and the
two lookup maps `sha_to_row` and `sha_to_column`. -/
structure LayoutState where
  nodes : List GraphNode
  edges : List GraphEdge
  max_column : Nat
  active_columns : List (Option String)
  sha_to_row : List (String × Nat)
  sha_to_column : List (String × Nat)
deriving DecidableEq

/-- Initial (empty) layout state. -/
def initLayout : LayoutState :=
  { nodes := [], edges := [], max_column := 0, active_columns := [],
    sha_to_row := [], sha_to_column := [] }

/-- Scan of the lane table for the first free slot, appending a fresh lane
when none is free: `active_columns.iter().position(is_none)` with the
`unwrap_or_else` push from `layout_graph`. -/
def findFreeLane (cols : List (Option String)) : Nat × List (Option String) :=
  match cols.findIdx? (fun c => c.isNone) with
  | some i => (i, cols)
  | none => (cols.length, cols ++ [none])

/-- Processing of one parent (at index `idx` in the full parent list of
length `nPar`) of the commit `sha` sitting at `column`/`row` with color
`color`: column choice, lane reservation, and edge emission, from the
parent loop of `layout_graph`. -/
def processParent (sha : String) (column row color nPar idx : Nat)
    (parent_sha : String) (s : LayoutState) : LayoutState :=
  let pc :=
    if idx = 0 then
      ({ s with
         sha_to_column := (parent_sha, column) :: s.sha_to_column,
         active_columns :=
           if column < s.active_columns.length then
             s.active_columns.set column (some parent_sha)
           else s.active_columns }, column)
    else
      let fr := findFreeLane s.active_columns
      ({ s with
         sha_to_column := (parent_sha, fr.1) :: s.sha_to_column,
         active_columns :=
           if fr.1 < fr.2.length then fr.2.set fr.1 (some parent_sha)
           else fr.2 ++ [some parent_sha],
         max_column := max s.max_column fr.1 }, fr.1)
  let parent_column := pc.2
  let parent_row := (List.lookup parent_sha s.sha_to_row).getD (row + 1)
  let et :=
    if nPar > 1 then EdgeType.Merge
    else if column ≠ parent_column then EdgeType.Branch
    else EdgeType.Linear
  { pc.1 with
    edges := pc.1.edges ++
      [{ from_sha := sha, to_sha := parent_sha, from_column := column,
         to_column := parent_column, from_row := row, to_row := parent_row,
         color := color, edge_type := et }] }

/-- Iteration over the (remaining) parents starting at index `idx`, from
the `for (parent_idx, parent_oid) in parents.iter().enumerate()` loop. -/
def processParentsGo (sha : String) (column row color nPar : Nat)
    (idx : Nat) (ps : List String) (s : LayoutState) : LayoutState :=
  match ps with
  | [] => s
  | p :: rest =>
      processParentsGo sha column row color nPar (idx + 1) rest
        (processParent sha column row color nPar idx p s)

/-- One iteration of the main loop of `layout_graph` for the commit `c` at
row `row`: record the row, find or assign the commit's column, free the
lane, update `max_column`, push the node, then process the parents. -/
def layoutStep (bm rm tm : List (String × List String)) (row : Nat)
    (c : RawCommit) (s : LayoutState) : LayoutState :=
  let s0 := { s with sha_to_row := (c.sha, row) :: s.sha_to_row }
  let colPick :=
    match List.lookup c.sha s0.sha_to_column with
    | some col => (col, s0)
    | none =>
        let fr := findFreeLane s0.active_columns
        (fr.1, { s0 with
                 active_columns := fr.2,
                 sha_to_column := (c.sha, fr.1) :: s0.sha_to_column })
  let column := colPick.1
  let s1 := colPick.2
  let s2 := { s1 with
              active_columns :=
                if column < s1.active_columns.length then
                  s1.active_columns.set column none
                else s1.active_columns,
              max_column := max s1.max_column column }
  let node : GraphNode :=
    { commit := CommitInfo.from_commit c bm rm tm, column := column,
      row := row, color := colorOf column }
  let s3 := { s2 with nodes := s2.nodes ++ [node] }
  processParentsGo c.sha column row (colorOf column) c.parents.length 0 c.parents s3

/-- Main loop of `layout_graph` over the commit window, with `row` the
enumeration index. -/
def layoutGo (bm rm tm : List (String × List String)) (row : Nat)
    (cs : List RawCommit) (s : LayoutState) : LayoutState :=
  match cs with
  | [] => s
  | c :: rest => layoutGo bm rm tm (row + 1) rest (layoutStep bm rm tm row c s)

/-- The layout engine `CommitGraphData::layout_graph` over an ordered
commit window and the three reference maps, returning the final state
(whose `nodes`, `edges` and `max_column` components are the function's
result triple). -/
def layoutGraph (cs : List RawCommit)
    (bm rm tm : List (String × List String)) : LayoutState :=
  layoutGo bm rm tm 0 cs initLayout

/-- In-memory commit search from `GitState::search_commits`: lowercase the
query, return nothing for an empty query, otherwise filter the loaded
nodes (if any) by lowercased message/author substring or lowercased
full/short id starting with the query, truncate to `limit`, and project
out the commit records. -/
def searchCommits (commits : Option CommitGraphData) (query : String)
    (limit : Nat) : List CommitInfo :=
  let q := lowerStr query
  if q = "" then []
  else
    match commits with
    | some data =>
        (((data.nodes.filter (fun node =>
            strContainsSub (lowerStr node.commit.message) q ||
            strContainsSub (lowerStr node.commit.author) q ||
            strStartsWith (lowerStr node.commit.sha) q ||
            strStartsWith (lowerStr node.commit.short_sha) q)).take limit).map
          (fun node => node.commit))
    | none => []

/-- Search predicate written from the spec's words (§4.5): the commit's
message or author contains the query case-insensitively as a substring, or
its full or short identifier starts with the query (identifiers and query
compared case-insensitively). -/
def matchesQuerySpec (query : String) (c : CommitInfo) : Bool :=
  strContainsSub (lowerStr c.message) (lowerStr query) ||
  strContainsSub (lowerStr c.author) (lowerStr query) ||
  strStartsWith (lowerStr c.sha) (lowerStr query) ||
  strStartsWith (lowerStr c.short_sha) (lowerStr query)

/-- Search result written from the spec's words (§4.5): for a non-empty
query, every loaded commit matching `matchesQuerySpec`, in original node
order, truncated to the cap; the empty result for an empty query. -/
def searchSpec (query : String) (limit : Nat) (nodes : List GraphNode) :
    List CommitInfo :=
  if query = "" then []
  else (((nodes.map (fun node => node.commit)).filter
          (matchesQuerySpec query)).take limit)

/-- One entry of the backend's local- or remote-branch enumeration:
`branch.name()` may itself fail (`Except`), and the branch target may be
absent, modelling the `git2::Branch` accesses made by `build`. -/
structure BranchItem where
  nameRes : Except String (Option String)
  target : Option String

/-- Modelled from the spec: the version-control backend capability
interface of §6 (repository open, revision walk, branch/tag enumeration,
per-commit lookup), which lives in the `git2` library outside this
repository.  Each `Except` field is one fallible backend call made by
`CommitGraphData::build`; `walkOids` is the ordered output sequence of the
time+topological revision walk seeded from HEAD and all local branch tips,
each item possibly an error; `findCommit` is `repo.find_commit`. -/
structure Backend where
  revwalkNew : Except String Unit
  setSorting : Except String Unit
  pushHead : Except String Unit
  localBranches : Except String (List (Except String BranchItem))
  remoteBranches : Except String (List (Except String BranchItem))
  tagEntries : Except String (List (String × Option String))
  walkOids : List (Except String String)
  findCommit : String → Option RawCommit

/-- Seeding loop of `build`: iterate the local branches, propagating any
per-item error (`branch?`); the `revwalk.push(oid)` result itself is
discarded (`let _ = revwalk.push(oid)`), so pushing is a no-op here. -/
def seedBranches (items : List (Except String BranchItem)) :
    Except String Unit :=
  items.forM (fun it => do
    let _ ← it
    pure ())

/-- Reference-map construction from a branch enumeration, from
`build_branches_map` / `build_remotes_map`: for each item, `branch?` and
`branch.name()?` propagate errors; a binding is recorded when both the
name and the target are present. -/
def buildRefMap (items : List (Except String BranchItem)) :
    Except String (List (String × List String)) :=
  items.foldlM (fun m it => do
    let item ← it
    let name? ← item.nameRes
    match name?, item.target with
    | some n, some oid => pure (mmInsert m oid n)
    | _, _ => pure m) []

/-- Stripping of the `refs/tags/` prefix from a tag reference name, from
`trim_start_matches("refs/tags/")` (tag reference names carry the prefix
exactly once). -/
def stripTagsRef (s : String) : String :=
  if strStartsWith s "refs/tags/" then ⟨s.data.drop 10⟩ else s

/-- Tags-map construction from `build_tags_map`: each enumerated tag whose
object resolved (annotated tags already dereferenced to their target
commit) is recorded under its target id with the `refs/tags/` prefix
stripped. -/
def buildTagsMap (entries : List (String × Option String)) :
    List (String × List String) :=
  entries.foldl (fun m e =>
    match e.2 with
    | some target => mmInsert m target (stripTagsRef e.1)
    | none => m) []

/-- Commit-collection loop of `build` over the enumerated walk output:
indices below `offset` are skipped, the loop breaks at index
`offset + limit`, and in between an errored walk item or a failed
`find_commit` is skipped without aborting. -/
def collectGo (find : String → Option RawCommit) (limit offset : Nat)
    (i : Nat) (items : List (Except String String))
    (acc : List RawCommit) : List RawCommit :=
  match items with
  | [] => acc
  | item :: rest =>
      if i < offset then collectGo find limit offset (i + 1) rest acc
      else if i ≥ offset + limit then acc
      else
        match item with
        | .ok oid =>
            match find oid with
            | some c => collectGo find limit offset (i + 1) rest (acc ++ [c])
            | none => collectGo find limit offset (i + 1) rest acc
        | .error _ => collectGo find limit offset (i + 1) rest acc

/-- Windowed commit collection of `build` (the `for (i, oid_result) in
revwalk.enumerate()` loop). -/
def collectCommits (walk : List (Except String String))
    (find : String → Option RawCommit) (limit offset : Nat) :
    List RawCommit :=
  collectGo find limit offset 0 walk []

/-- The full `CommitGraphData::build(repo, limit, offset)`: revision-walk
setup and seeding, reference-map construction, windowed commit collection,
and the layout pass; any fatal backend error aborts the whole call. -/
def build (b : Backend) (limit offset : Nat) :
    Except String CommitGraphData := do
  let _ ← b.revwalkNew
  let _ ← b.setSorting
  let _ ← b.pushHead
  let seedItems ← b.localBranches
  let _ ← seedBranches seedItems
  let localItems ← b.localBranches
  let bm ← buildRefMap localItems
  let remoteItems ← b.remoteBranches
  let rm ← buildRefMap remoteItems
  let tagItems ← b.tagEntries
  let tm := buildTagsMap tagItems
  let commits := collectCommits b.walkOids b.findCommit limit offset
  let st := layoutGraph commits bm rm tm
  pure { nodes := st.nodes, edges := st.edges, max_column := st.max_column }

theorem processParent_zero (sha p : String) (col row color nPar : Nat)
    (s : LayoutState) :
    processParent sha col row color nPar 0 p s =
      { nodes := s.nodes
        edges := s.edges ++
          [{ from_sha := sha, to_sha := p, from_column := col,
             to_column := col, from_row := row,
             to_row := (List.lookup p s.sha_to_row).getD (row + 1),
             color := color,
             edge_type := if nPar > 1 then EdgeType.Merge else EdgeType.Linear }]
        max_column := s.max_column
        active_columns :=
          if col < s.active_columns.length then
            s.active_columns.set col (some p)
          else s.active_columns
        sha_to_row := s.sha_to_row
        sha_to_column := (p, col) :: s.sha_to_column } := by
  simp [processParent]

theorem processParent_succ (sha p : String) (col row color nPar idx : Nat)
    (s : LayoutState) :
    processParent sha col row color nPar (idx + 1) p s =
      { nodes := s.nodes
        edges := s.edges ++
          [{ from_sha := sha, to_sha := p, from_column := col,
             to_column := (findFreeLane s.active_columns).1, from_row := row,
             to_row := (List.lookup p s.sha_to_row).getD (row + 1),
             color := color,
             edge_type :=
               if nPar > 1 then EdgeType.Merge
               else if col ≠ (findFreeLane s.active_columns).1 then EdgeType.Branch
               else EdgeType.Linear }]
        max_column := max s.max_column (findFreeLane s.active_columns).1
        active_columns :=
          if (findFreeLane s.active_columns).1 < (findFreeLane s.active_columns).2.length then
            (findFreeLane s.active_columns).2.set (findFreeLane s.active_columns).1 (some p)
          else (findFreeLane s.active_columns).2 ++ [some p]
        sha_to_row := s.sha_to_row
        sha_to_column := (p, (findFreeLane s.active_columns).1) :: s.sha_to_column } := by
  simp [processParent]

theorem processParent_nodes (sha p : String) (col row color nPar idx : Nat)
    (s : LayoutState) :
    (processParent sha col row color nPar idx p s).nodes = s.nodes := by
  cases idx with
  | zero => rw [processParent_zero]
  | succ k => rw [processParent_succ]

theorem processParent_sha_to_row (sha p : String) (col row color nPar idx : Nat)
    (s : LayoutState) :
    (processParent sha col row color nPar idx p s).sha_to_row = s.sha_to_row := by
  cases idx with
  | zero => rw [processParent_zero]
  | succ k => rw [processParent_succ]

theorem ppGo_nodes (sha : String) (col row color nPar : Nat) :
    ∀ (ps : List String) (idx : Nat) (s : LayoutState),
      (processParentsGo sha col row color nPar idx ps s).nodes = s.nodes := by
  intro ps
  induction ps with
  | nil => intro idx s; rfl
  | cons p rest ih =>
      intro idx s
      rw [processParentsGo, ih, processParent_nodes]

theorem ppGo_edges_mono (sha : String) (col row color nPar : Nat) :
    ∀ (ps : List String) (idx : Nat) (s : LayoutState) (e : GraphEdge),
      e ∈ s.edges →
      e ∈ (processParentsGo sha col row color nPar idx ps s).edges := by
  intro ps
  induction ps with
  | nil => intro idx s e he; exact he
  | cons p rest ih =>
      intro idx s e he
      rw [processParentsGo]
      apply ih
      cases idx with
      | zero => rw [processParent_zero]; exact List.mem_append_left _ he
      | succ k => rw [processParent_succ]; exact List.mem_append_left _ he

theorem ppGo_edges_mem (sha : String) (col row color nPar : Nat) :
    ∀ (ps : List String) (idx : Nat) (s : LayoutState) (e : GraphEdge),
      e ∈ (processParentsGo sha col row color nPar idx ps s).edges →
      e ∈ s.edges ∨
        (e.from_sha = sha ∧ e.from_column = col ∧ e.from_row = row ∧
         e.color = color ∧ (1 < nPar → e.edge_type = EdgeType.Merge) ∧
         e.to_sha ∈ ps) := by
  intro ps
  induction ps with
  | nil => intro idx s e he; exact Or.inl he
  | cons p rest ih =>
      intro idx s e he
      rw [processParentsGo] at he
      rcases ih (idx + 1) _ e he with h | h
      · cases idx with
        | zero =>
            rw [processParent_zero] at h
            rcases List.mem_append.mp h with h' | h'
            · exact Or.inl h'
            · rcases List.mem_singleton.mp h' with rfl
              refine Or.inr ⟨rfl, rfl, rfl, rfl, ?_, by simp⟩
              intro hn
              simp [hn]
        | succ k =>
            rw [processParent_succ] at h
            rcases List.mem_append.mp h with h' | h'
            · exact Or.inl h'
            · rcases List.mem_singleton.mp h' with rfl
              refine Or.inr ⟨rfl, rfl, rfl, rfl, ?_, by simp⟩
              intro hn
              simp [if_pos hn]
      · exact Or.inr ⟨h.1, h.2.1, h.2.2.1, h.2.2.2.1, h.2.2.2.2.1,
          List.mem_cons_of_mem _ h.2.2.2.2.2⟩

theorem processParent_lookup (sha p X : String) (col row color nPar idx : Nat)
    (s : LayoutState) (hne : X ≠ p) :
    List.lookup X (processParent sha col row color nPar idx p s).sha_to_column =
      List.lookup X s.sha_to_column := by
  have hb : (X == p) = false := beq_eq_false_iff_ne.mpr hne
  cases idx with
  | zero => rw [processParent_zero]; simp [List.lookup, hb]
  | succ k => rw [processParent_succ]; simp [List.lookup, hb]

theorem ppGo_lookup (sha X : String) (col row color nPar : Nat) :
    ∀ (ps : List String) (idx : Nat) (s : LayoutState), X ∉ ps →
      List.lookup X (processParentsGo sha col row color nPar idx ps s).sha_to_column =
        List.lookup X s.sha_to_column := by
  intro ps
  induction ps with
  | nil => intro idx s _; rfl
  | cons p rest ih =>
      intro idx s hX
      rw [processParentsGo, ih (idx + 1) _ (fun h => hX (List.mem_cons_of_mem _ h)),
        processParent_lookup]
      intro h
      exact hX (h ▸ List.mem_cons_self _ _)

theorem from_commit_sha (c : RawCommit)
    (bm rm tm : List (String × List String)) :
    (CommitInfo.from_commit c bm rm tm).sha = c.sha := rfl

theorem layoutStep_shape (bm rm tm : List (String × List String)) (row : Nat)
    (c : RawCommit) (s : LayoutState) :
    ∃ (col : Nat) (ac : List (Option String)) (sc : List (String × Nat)),
      layoutStep bm rm tm row c s =
        processParentsGo c.sha col row (colorOf col) c.parents.length 0 c.parents
          { nodes := s.nodes ++
              [{ commit := CommitInfo.from_commit c bm rm tm,
                 column := col, row := row, color := colorOf col }]
            edges := s.edges
            max_column := max s.max_column col
            active_columns := ac
            sha_to_row := (c.sha, row) :: s.sha_to_row
            sha_to_column := sc } ∧
      ((List.lookup c.sha s.sha_to_column = some col ∧ sc = s.sha_to_column) ∨
       (List.lookup c.sha s.sha_to_column = none ∧
        sc = (c.sha, col) :: s.sha_to_column)) := by
  cases h : List.lookup c.sha s.sha_to_column with
  | some col =>
      refine ⟨col,
        if col < s.active_columns.length then s.active_columns.set col none
        else s.active_columns,
        s.sha_to_column, ?_, Or.inl ⟨rfl, rfl⟩⟩
      simp only [layoutStep, h]
  | none =>
      refine ⟨(findFreeLane s.active_columns).1,
        if (findFreeLane s.active_columns).1 < (findFreeLane s.active_columns).2.length then
          (findFreeLane s.active_columns).2.set (findFreeLane s.active_columns).1 none
        else (findFreeLane s.active_columns).2,
        (c.sha, (findFreeLane s.active_columns).1) :: s.sha_to_column, ?_,
        Or.inr ⟨rfl, rfl⟩⟩
      simp only [layoutStep, h]

theorem layoutGo_nodes_mono (bm rm tm : List (String × List String)) :
    ∀ (cs : List RawCommit) (row : Nat) (s : LayoutState) (n : GraphNode),
      n ∈ s.nodes → n ∈ (layoutGo bm rm tm row cs s).nodes := by
  intro cs
  induction cs with
  | nil => intro row s n hn; exact hn
  | cons c rest ih =>
      intro row s n hn
      rw [layoutGo]
      apply ih
      obtain ⟨col, ac, sc, heq, -⟩ := layoutStep_shape bm rm tm row c s
      rw [heq, ppGo_nodes]
      exact List.mem_append_left _ hn

theorem layoutGo_edges_mono (bm rm tm : List (String × List String)) :
    ∀ (cs : List RawCommit) (row : Nat) (s : LayoutState) (e : GraphEdge),
      e ∈ s.edges → e ∈ (layoutGo bm rm tm row cs s).edges := by
  intro cs
  induction cs with
  | nil => intro row s e he; exact he
  | cons c rest ih =>
      intro row s e he
      rw [layoutGo]
      apply ih
      obtain ⟨col, ac, sc, heq, -⟩ := layoutStep_shape bm rm tm row c s
      rw [heq]
      exact ppGo_edges_mono _ _ _ _ _ _ _ _ _ he

/-- Consistency of the edges with their child nodes, as an invariant of
the layout state. -/
def edgeNodeOk (s : LayoutState) : Prop :=
  ∀ e ∈ s.edges, ∃ n ∈ s.nodes,
    n.commit.sha = e.from_sha ∧ n.column = e.from_column ∧
    n.row = e.from_row ∧ n.color = e.color ∧ n.color = colorOf n.column

theorem layoutStep_edgeNodeOk (bm rm tm : List (String × List String))
    (row : Nat) (c : RawCommit) (s : LayoutState) (h : edgeNodeOk s) :
    edgeNodeOk (layoutStep bm rm tm row c s) := by
  obtain ⟨col, ac, sc, heq, -⟩ := layoutStep_shape bm rm tm row c s
  rw [heq]
  intro e he
  rw [ppGo_nodes]
  rcases ppGo_edges_mem _ _ _ _ _ _ _ _ e he with h' | h'
  · obtain ⟨n, hn, hprops⟩ := h e h'
    exact ⟨n, List.mem_append_left _ hn, hprops⟩
  · refine ⟨{ commit := CommitInfo.from_commit c bm rm tm, column := col,
              row := row, color := colorOf col }, by simp, ?_⟩
    exact ⟨h'.1.symm, h'.2.1.symm, h'.2.2.1.symm, h'.2.2.2.1.symm, rfl⟩

theorem layoutGo_edgeNodeOk (bm rm tm : List (String × List String)) :
    ∀ (cs : List RawCommit) (row : Nat) (s : LayoutState),
      edgeNodeOk s → edgeNodeOk (layoutGo bm rm tm row cs s) := by
  intro cs
  induction cs with
  | nil => intro row s h; exact h
  | cons c rest ih =>
      intro row s h
      exact ih _ _ (layoutStep_edgeNodeOk bm rm tm row c s h)

/-- Association of each edge with a window commit carrying the edge's
source id and the Merge classification of multi-parent commits. -/
def edgesFromOk (univ : List RawCommit) (s : LayoutState) : Prop :=
  ∀ e ∈ s.edges, ∃ cr ∈ univ,
    e.from_sha = cr.sha ∧ (1 < cr.parents.length → e.edge_type = EdgeType.Merge)

theorem layoutStep_edgesFromOk (univ : List RawCommit)
    (bm rm tm : List (String × List String)) (row : Nat) (c : RawCommit)
    (s : LayoutState) (hc : c ∈ univ) (h : edgesFromOk univ s) :
    edgesFromOk univ (layoutStep bm rm tm row c s) := by
  obtain ⟨col, ac, sc, heq, -⟩ := layoutStep_shape bm rm tm row c s
  rw [heq]
  intro e he
  rcases ppGo_edges_mem _ _ _ _ _ _ _ _ e he with h' | h'
  · exact h e h'
  · exact ⟨c, hc, h'.1, h'.2.2.2.2.1⟩

theorem layoutGo_edgesFromOk (univ : List RawCommit)
    (bm rm tm : List (String × List String)) :
    ∀ (cs : List RawCommit) (row : Nat) (s : LayoutState),
      (∀ cr ∈ cs, cr ∈ univ) → edgesFromOk univ s →
      edgesFromOk univ (layoutGo bm rm tm row cs s) := by
  intro cs
  induction cs with
  | nil => intro row s _ h; exact h
  | cons c rest ih =>
      intro row s hsub h
      exact ih _ _ (fun cr hcr => hsub cr (List.mem_cons_of_mem _ hcr))
        (layoutStep_edgesFromOk univ bm rm tm row c s
          (hsub c (List.mem_cons_self _ _)) h)

theorem layoutStep_first_parent (bm rm tm : List (String × List String))
    (row : Nat) (c : RawCommit) (s : LayoutState) (p : String)
    (ps : List String) (hp : c.parents = p :: ps) :
    ∃ e ∈ (layoutStep bm rm tm row c s).edges,
      e.from_sha = c.sha ∧ e.to_sha = p ∧ e.to_column = e.from_column ∧
      e.from_row = row := by
  obtain ⟨col, ac, sc, heq, -⟩ := layoutStep_shape bm rm tm row c s
  rw [heq, hp, processParentsGo]
  rw [processParent_zero]
  refine ⟨_, ppGo_edges_mono _ _ _ _ _ _ _ _ _
    (List.mem_append_right _ (List.mem_singleton_self _)), rfl, rfl, rfl, rfl⟩

theorem layoutGo_first_parent (bm rm tm : List (String × List String)) :
    ∀ (cs : List RawCommit) (row : Nat) (s : LayoutState) (c : RawCommit)
      (p : String) (ps : List String), c ∈ cs → c.parents = p :: ps →
      ∃ e ∈ (layoutGo bm rm tm row cs s).edges,
        e.from_sha = c.sha ∧ e.to_sha = p ∧ e.to_column = e.from_column := by
  intro cs
  induction cs with
  | nil => intro row s c p ps hc; exact absurd hc (List.not_mem_nil _)
  | cons c0 rest ih =>
      intro row s c p ps hc hp
      rcases List.mem_cons.mp hc with rfl | hc'
      · obtain ⟨e, he, h1, h2, h3, -⟩ :=
          layoutStep_first_parent bm rm tm row c s p ps hp
        exact ⟨e, layoutGo_edges_mono bm rm tm rest _ _ e he, h1, h2, h3⟩
      · exact ih _ _ c p ps hc' hp

theorem layoutStep_lookup_stable (bm rm tm : List (String × List String))
    (row : Nat) (c : RawCommit) (s : LayoutState) (X : String) (col : Nat)
    (hX : X ∉ c.parents) (h : List.lookup X s.sha_to_column = some col) :
    List.lookup X (layoutStep bm rm tm row c s).sha_to_column = some col := by
  obtain ⟨col', ac, sc, heq, hsc⟩ := layoutStep_shape bm rm tm row c s
  rw [heq, ppGo_lookup _ _ _ _ _ _ _ _ _ hX]
  rcases hsc with ⟨-, rfl⟩ | ⟨hnone, rfl⟩
  · exact h
  · have hne : X ≠ c.sha := by
      intro hEq
      rw [hEq, hnone] at h
      exact Option.noConfusion h
    simpa [List.lookup, beq_eq_false_iff_ne.mpr hne] using h

theorem layoutStep_node_stable (bm rm tm : List (String × List String))
    (row : Nat) (c : RawCommit) (s : LayoutState) (X : String) (col : Nat)
    (h : List.lookup X s.sha_to_column = some col) :
    ∀ n ∈ (layoutStep bm rm tm row c s).nodes,
      n ∈ s.nodes ∨ (n.commit.sha = X → n.column = col) := by
  obtain ⟨col', ac, sc, heq, hsc⟩ := layoutStep_shape bm rm tm row c s
  rw [heq, ppGo_nodes]
  intro n hn
  rcases List.mem_append.mp hn with h' | h'
  · exact Or.inl h'
  · rcases List.mem_singleton.mp h' with rfl
    refine Or.inr ?_
    intro hsha
    rw [from_commit_sha] at hsha
    rcases hsc with ⟨hsome, -⟩ | ⟨hnone, -⟩
    · rw [hsha, h] at hsome
      exact (Option.some_inj.mp hsome).symm
    · rw [hsha, h] at hnone
      exact Option.noConfusion hnone

theorem layoutGo_column_stable (bm rm tm : List (String × List String)) :
    ∀ (cs : List RawCommit) (row : Nat) (s : LayoutState) (X : String)
      (col : Nat), List.lookup X s.sha_to_column = some col →
      (∀ cr ∈ cs, X ∉ cr.parents) →
      List.lookup X (layoutGo bm rm tm row cs s).sha_to_column = some col ∧
      ∀ n ∈ (layoutGo bm rm tm row cs s).nodes,
        n ∈ s.nodes ∨ (n.commit.sha = X → n.column = col) := by
  intro cs
  induction cs with
  | nil => intro row s X col h _; exact ⟨h, fun n hn => Or.inl hn⟩
  | cons c rest ih =>
      intro row s X col h hX
      have hstep := layoutStep_lookup_stable bm rm tm row c s X col
        (hX c (List.mem_cons_self _ _)) h
      obtain ⟨h1, h2⟩ := ih _ _ X col hstep
        (fun cr hcr => hX cr (List.mem_cons_of_mem _ hcr))
      refine ⟨h1, fun n hn => ?_⟩
      rcases h2 n hn with h' | h'
      · exact layoutStep_node_stable bm rm tm row c s X col h n h'
      · exact Or.inr h'

theorem foldr_max_eq (l : List Nat) (a : Nat) :
    l.foldr max a = max a (maxList l) := by
  induction l with
  | nil => simp [maxList]
  | cons x l ih => simp [maxList, List.foldr_cons] at ih ⊢; omega

theorem maxList_append (l₁ l₂ : List Nat) :
    maxList (l₁ ++ l₂) = max (maxList l₁) (maxList l₂) := by
  rw [maxList, List.foldr_append, foldr_max_eq]
  exact Nat.max_comm _ _

/-- All column values referenced by the nodes and edges of a layout
state. -/
def colsOf (s : LayoutState) : List Nat :=
  s.nodes.map GraphNode.column ++
    (s.edges.map GraphEdge.from_column ++ s.edges.map GraphEdge.to_column)

/-- Exactness of the running maximum column. -/
def maxOk (s : LayoutState) : Prop := s.max_column = maxList (colsOf s)

theorem processParent_maxOk (sha p : String) (col row color nPar idx : Nat)
    (s : LayoutState) (hcol : col ≤ s.max_column) (h : maxOk s) :
    maxOk (processParent sha col row color nPar idx p s) ∧
      s.max_column ≤ (processParent sha col row color nPar idx p s).max_column := by
  rw [maxOk] at h
  cases idx with
  | zero =>
      rw [processParent_zero]
      constructor
      · rw [maxOk]
        simp only [colsOf, List.map_append, List.map_cons, List.map_nil,
          maxList_append] at h ⊢
        simp only [maxList, List.foldr_cons, List.foldr_nil] at h ⊢
        omega
      · exact Nat.le_refl _
  | succ k =>
      rw [processParent_succ]
      constructor
      · rw [maxOk]
        simp only [colsOf, List.map_append, List.map_cons, List.map_nil,
          maxList_append] at h ⊢
        simp only [maxList, List.foldr_cons, List.foldr_nil] at h ⊢
        omega
      · exact Nat.le_max_left _ _

theorem ppGo_maxOk (sha : String) (col row color nPar : Nat) :
    ∀ (ps : List String) (idx : Nat) (s : LayoutState),
      col ≤ s.max_column → maxOk s →
      maxOk (processParentsGo sha col row color nPar idx ps s) ∧
        s.max_column ≤ (processParentsGo sha col row color nPar idx ps s).max_column := by
  intro ps
  induction ps with
  | nil => intro idx s _ h; exact ⟨h, Nat.le_refl _⟩
  | cons p rest ih =>
      intro idx s hcol h
      rw [processParentsGo]
      obtain ⟨h1, h2⟩ := processParent_maxOk sha p col row color nPar idx s hcol h
      obtain ⟨h3, h4⟩ := ih (idx + 1) _ (Nat.le_trans hcol h2) h1
      exact ⟨h3, Nat.le_trans h2 h4⟩

theorem layoutStep_maxOk (bm rm tm : List (String × List String)) (row : Nat)
    (c : RawCommit) (s : LayoutState) (h : maxOk s) :
    maxOk (layoutStep bm rm tm row c s) := by
  obtain ⟨col, ac, sc, heq, -⟩ := layoutStep_shape bm rm tm row c s
  rw [heq]
  refine (ppGo_maxOk _ _ _ _ _ _ _ _ (Nat.le_max_right _ _) ?_).1
  rw [maxOk] at h ⊢
  simp only [colsOf, List.map_append, List.map_cons, List.map_nil,
    maxList_append] at h ⊢
  simp only [maxList, List.foldr_cons, List.foldr_nil] at h ⊢
  omega

theorem layoutGo_maxOk (bm rm tm : List (String × List String)) :
    ∀ (cs : List RawCommit) (row : Nat) (s : LayoutState),
      maxOk s → maxOk (layoutGo bm rm tm row cs s) := by
  intro cs
  induction cs with
  | nil => intro row s h; exact h
  | cons c rest ih =>
      intro row s h
      exact ih _ _ (layoutStep_maxOk bm rm tm row c s h)

theorem layoutGo_nodes_length (bm rm tm : List (String × List String)) :
    ∀ (cs : List RawCommit) (row : Nat) (s : LayoutState),
      (layoutGo bm rm tm row cs s).nodes.length = s.nodes.length + cs.length := by
  intro cs
  induction cs with
  | nil => intro row s; simp [layoutGo]
  | cons c rest ih =>
      intro row s
      rw [layoutGo, ih]
      obtain ⟨col, ac, sc, heq, -⟩ := layoutStep_shape bm rm tm row c s
      rw [heq, ppGo_nodes]
      simp only [List.length_append, List.length_cons, List.length_nil]
      omega

theorem from_commit_congr (c : RawCommit)
    (bm1 bm2 rm1 rm2 tm1 tm2 : List (String × List String))
    (hb : ∀ k, mmLookup bm1 k = mmLookup bm2 k)
    (hr : ∀ k, mmLookup rm1 k = mmLookup rm2 k)
    (ht : ∀ k, mmLookup tm1 k = mmLookup tm2 k) :
    CommitInfo.from_commit c bm1 rm1 tm1 = CommitInfo.from_commit c bm2 rm2 tm2 := by
  simp [CommitInfo.from_commit, hb, hr, ht]

theorem layoutStep_congr (row : Nat) (c : RawCommit) (s : LayoutState)
    (bm1 bm2 rm1 rm2 tm1 tm2 : List (String × List String))
    (hb : ∀ k, mmLookup bm1 k = mmLookup bm2 k)
    (hr : ∀ k, mmLookup rm1 k = mmLookup rm2 k)
    (ht : ∀ k, mmLookup tm1 k = mmLookup tm2 k) :
    layoutStep bm1 rm1 tm1 row c s = layoutStep bm2 rm2 tm2 row c s := by
  simp only [layoutStep]
  rw [from_commit_congr c bm1 bm2 rm1 rm2 tm1 tm2 hb hr ht]

theorem layoutGo_congr (bm1 bm2 rm1 rm2 tm1 tm2 : List (String × List String))
    (hb : ∀ k, mmLookup bm1 k = mmLookup bm2 k)
    (hr : ∀ k, mmLookup rm1 k = mmLookup rm2 k)
    (ht : ∀ k, mmLookup tm1 k = mmLookup tm2 k) :
    ∀ (cs : List RawCommit) (row : Nat) (s : LayoutState),
      layoutGo bm1 rm1 tm1 row cs s = layoutGo bm2 rm2 tm2 row cs s := by
  intro cs
  induction cs with
  | nil => intro row s; rfl
  | cons c rest ih =>
      intro row s
      rw [layoutGo, layoutGo,
        layoutStep_congr row c s bm1 bm2 rm1 rm2 tm1 tm2 hb hr ht, ih]

theorem collectGo_spec (find : String → Option RawCommit) (limit offset : Nat) :
    ∀ (items : List (Except String String)) (i : Nat) (acc : List RawCommit),
      collectGo find limit offset i items acc =
        acc ++ (((items.drop (offset - i)).take (offset + limit - max i offset)).filterMap
          (fun r => match r with | .ok oid => find oid | .error _ => none)) := by
  intro items
  induction items with
  | nil => intro i acc; simp [collectGo]
  | cons item rest ih =>
      intro i acc
      simp only [collectGo]
      by_cases h1 : i < offset
      · rw [if_pos h1, ih]
        have hd : offset - i = (offset - (i + 1)) + 1 := by omega
        have hm1 : max i offset = offset := by omega
        have hm2 : max (i + 1) offset = offset := by omega
        rw [hd, List.drop_succ_cons, hm1, hm2]
      · rw [if_neg h1]
        by_cases h2 : i ≥ offset + limit
        · rw [if_pos h2]
          have h0 : offset + limit - max i offset = 0 := by omega
          rw [h0, List.take_zero, List.filterMap_nil, List.append_nil]
        · rw [if_neg h2]
          have hdrop : offset - i = 0 := by omega
          have hdp : offset - (i + 1) = 0 := by omega
          have htake : offset + limit - max i offset =
              (offset + limit - max (i + 1) offset) + 1 := by omega
          cases item with
          | ok oid =>
              cases hf : find oid with
              | some c =>
                  simp only [hf]
                  rw [ih, hdp, List.drop_zero, hdrop, List.drop_zero, htake,
                    List.take_succ_cons, List.filterMap_cons]
                  simp [hf]
              | none =>
                  simp only [hf]
                  rw [ih, hdp, List.drop_zero, hdrop, List.drop_zero, htake,
                    List.take_succ_cons, List.filterMap_cons]
                  simp [hf]
          | error msg =>
              simp only []
              rw [ih, hdp, List.drop_zero, hdrop, List.drop_zero, htake,
                List.take_succ_cons, List.filterMap_cons]

theorem lowerStr_empty_iff (s : String) : lowerStr s = "" ↔ s = "" := by
  cases s with
  | mk data =>
      constructor
      · intro h
        have hdata : data.map Char.toLower = [] := congrArg String.data h
        rw [List.map_eq_nil_iff] at hdata
        rw [hdata]
      · intro h
        rw [h]
        rfl

theorem searchCommits_unfold_ne (g : CommitGraphData) (query : String)
    (limit : Nat) (hq : query ≠ "") :
    searchCommits (some g) query limit =
      ((g.nodes.filter (fun node =>
          strContainsSub (lowerStr node.commit.message) (lowerStr query) ||
          strContainsSub (lowerStr node.commit.author) (lowerStr query) ||
          strStartsWith (lowerStr node.commit.sha) (lowerStr query) ||
          strStartsWith (lowerStr node.commit.short_sha) (lowerStr query))).take
        limit).map (fun node => node.commit) := by
  have hlq : ¬ lowerStr query = "" := fun h => hq ((lowerStr_empty_iff query).mp h)
  simp only [searchCommits, if_neg hlq]

theorem layoutGo_append (bm rm tm : List (String × List String)) :
    ∀ (cs1 cs2 : List RawCommit) (row : Nat) (s : LayoutState),
      layoutGo bm rm tm row (cs1 ++ cs2) s =
        layoutGo bm rm tm (row + cs1.length) cs2 (layoutGo bm rm tm row cs1 s) := by
  intro cs1
  induction cs1 with
  | nil => intro cs2 row s; simp [layoutGo]
  | cons c rest ih =>
      intro cs2 row s
      rw [List.cons_append, layoutGo, ih, layoutGo]
      have : row + 1 + rest.length = row + (rest.length + 1) := by omega
      rw [this]
      rfl

/-- Default edge used only to extract concrete elements from lists. -/
def dummyEdge : GraphEdge :=
  { from_sha := "", to_sha := "", from_column := 0, to_column := 0,
    from_row := 0, to_row := 0, color := 0, edge_type := EdgeType.Linear }

/-- Commit C of the diverging scenario: child of B on the main lineage. -/
def rcDivC : RawCommit :=
  { sha := "ccccccc", message := some "fix bug", author := some "alice",
    email := some "a@example.com", time := 3, parents := ["bbbbbbb"] }

/-- Commit E of the diverging scenario: second child of B (feature tip). -/
def rcDivE : RawCommit :=
  { sha := "eeeeeee", message := some "add feature", author := some "bob",
    email := some "b@example.com", time := 2, parents := ["bbbbbbb"] }

/-- Commit B of the diverging scenario: the common parent. -/
def rcDivB : RawCommit :=
  { sha := "bbbbbbb", message := some "base", author := some "alice",
    email := some "a@example.com", time := 1, parents := [] }

/-- Layout of the diverging-branches window (children first, walk
order). -/
def scenarioDiverge : LayoutState := layoutGraph [rcDivC, rcDivE, rcDivB] [] [] []

/-- C1 counterexample: in the window [C, E, B] where B has the two
children C and E (each with B as its only parent), the layout gives C and
E the different columns 0 and 1 and B ends in column 1 (E's column, so C
does not continue B's column), yet both parent edges are classified
`Linear` — the claim's required `Branch` edge for the non-continuing child
never appears, since a first-parent edge always records `to_column =
from_column`. -/
theorem scenarioDiverge_no_branch_edge :
    (scenarioDiverge.nodes.map (fun n => (n.commit.sha, n.column)) =
      [("ccccccc", 0), ("eeeeeee", 1), ("bbbbbbb", 1)]) ∧
    scenarioDiverge.edges.map GraphEdge.edge_type =
      [EdgeType.Linear, EdgeType.Linear] := by decide

/-- C1 amended: in a window containing a commit B with two children C and
E (each having B as its only parent), the layout assigns C and E two
different columns, and both parent edges have edge_type `Linear` (each
first-parent edge records `to_column` equal to the child's own column, so
no `Branch` edge is produced). -/
theorem scenarioDiverge_layout :
    scenarioDiverge.nodes.map GraphNode.column = [0, 1, 1] ∧
    scenarioDiverge.edges.map
        (fun e => (e.from_sha, e.to_sha, e.from_column, e.to_column, e.edge_type)) =
      [("ccccccc", "bbbbbbb", 0, 0, EdgeType.Linear),
       ("eeeeeee", "bbbbbbb", 1, 1, EdgeType.Linear)] := by decide

/-- Modelled from the spec: a repository with no commits has an unborn
HEAD, so revision-walk initialization fails at `push_head()` (§7:
"revision-walk initialization fails (e.g., no HEAD) — the whole build()
fails"); the branch and tag enumerations are empty and the walk yields
nothing. -/
def emptyRepoBackend : Backend :=
  { revwalkNew := .ok (), setSorting := .ok (),
    pushHead := .error "reference not found",
    localBranches := .ok [], remoteBranches := .ok [], tagEntries := .ok [],
    walkOids := [], findCommit := fun _ => none }

/-- C2 counterexample: on a repository with no commits, `build(limit,
offset)` does not succeed with an empty node list — it propagates the
`push_head` failure and returns an error. -/
theorem build_empty_repo_errors :
    build emptyRepoBackend 50 0 = Except.error "reference not found" := rfl

/-- C2 amended: `build` fails on a repository with no commits (unborn
HEAD); an empty node list with `max_column = 0` is produced exactly when
revision-walk initialization succeeds but the walk yields no items in the
window. -/
theorem build_ok_of_empty_walk (b : Backend) (limit offset : Nat)
    (h1 : b.revwalkNew = .ok ()) (h2 : b.setSorting = .ok ())
    (h3 : b.pushHead = .ok ()) (h4 : b.localBranches = .ok [])
    (h5 : b.remoteBranches = .ok []) (h6 : b.tagEntries = .ok [])
    (h7 : b.walkOids = []) :
    build b limit offset =
      Except.ok { nodes := [], edges := [], max_column := 0 } := by
  simp [build, h1, h2, h3, h4, h5, h6, h7, seedBranches, buildRefMap,
    collectCommits, collectGo, buildTagsMap, layoutGraph, layoutGo,
    initLayout, bind, Except.bind, pure, Except.pure, List.forM,
    List.foldlM, Functor.map, Except.map]

/-- Backend whose walk initializes but yields nothing (e.g., the window is
past the end of the history). -/
def emptyWalkBackend : Backend :=
  { revwalkNew := .ok (), setSorting := .ok (), pushHead := .ok (),
    localBranches := .ok [], remoteBranches := .ok [], tagEntries := .ok [],
    walkOids := [], findCommit := fun _ => none }

theorem build_ok_of_empty_walk_witness :
    build emptyWalkBackend 20 0 =
      Except.ok { nodes := [], edges := [], max_column := 0 } :=
  build_ok_of_empty_walk emptyWalkBackend 20 0 rfl rfl rfl rfl rfl rfl rfl

/-- C3: for every commit of the window with two or more parents, every
edge emitted for that commit (identified by its `from_sha`, the window
having pairwise distinct ids) has edge_type `Merge`, including when the
parent's column equals the commit's own column. -/
theorem merge_edges_all_merge (cs : List RawCommit)
    (bm rm tm : List (String × List String)) (c : RawCommit)
    (hnodup : (cs.map RawCommit.sha).Nodup) (hc : c ∈ cs)
    (hpar : 2 ≤ c.parents.length) :
    ∀ e ∈ (layoutGraph cs bm rm tm).edges, e.from_sha = c.sha →
      e.edge_type = EdgeType.Merge := by
  intro e he hsha
  obtain ⟨cr, hcr, hsha', hmerge⟩ :=
    layoutGo_edgesFromOk cs bm rm tm cs 0 initLayout (fun cr h => h)
      (fun e h => absurd h (List.not_mem_nil _)) e he
  have hceq : cr = c :=
    List.inj_on_of_nodup_map hnodup hcr hc (by rw [← hsha', hsha])
  subst hceq
  exact hmerge (by omega)

/-- Merge commit D with parents [B, C], both outside the window, for the
C3 witness. -/
def rcMergeD : RawCommit :=
  { sha := "7a7a7a7", message := some "merge feature", author := some "carol",
    email := some "c@example.com", time := 9,
    parents := ["8b8b8b8", "9c9c9c9"] }

theorem merge_edges_all_merge_witness :
    2 ≤ rcMergeD.parents.length ∧
    ((layoutGraph [rcMergeD] [] [] []).edges.headD dummyEdge).edge_type =
      EdgeType.Merge :=
  ⟨by decide,
    merge_edges_all_merge [rcMergeD] [] [] [] rcMergeD (by decide) (by decide)
      (by decide) _ (by decide) (by decide)⟩

/-- Child X of the column-rebinding scenario: first child of Z. -/
def rcRebX : RawCommit :=
  { sha := "1a1a1a1", message := some "tip one", author := some "dave",
    email := some "d@example.com", time := 3, parents := ["3c3c3c3"] }

/-- Child Y of the column-rebinding scenario: second child of Z. -/
def rcRebY : RawCommit :=
  { sha := "2b2b2b2", message := some "tip two", author := some "erin",
    email := some "e@example.com", time := 2, parents := ["3c3c3c3"] }

/-- Parent Z of the column-rebinding scenario. -/
def rcRebZ : RawCommit :=
  { sha := "3c3c3c3", message := some "shared base", author := some "dave",
    email := some "d@example.com", time := 1, parents := [] }

/-- Layout of the column-rebinding window. -/
def scenarioRebind : LayoutState := layoutGraph [rcRebX, rcRebY, rcRebZ] [] [] []

/-- C4 counterexample: commit Z is first assigned column 0 when child X
reserves it as first parent (X's edge records `to_column = 0`), but the
second child Y re-reserves Z at column 1, and Z's own node is created at
column 1 — the first assignment is changed, and a later reference (Z's
node) does not use it. -/
theorem column_rebound_counterexample :
    (scenarioRebind.edges.map (fun e => (e.to_sha, e.to_column)) =
      [("3c3c3c3", 0), ("3c3c3c3", 1)]) ∧
    (scenarioRebind.nodes.map (fun n => (n.commit.sha, n.column)) =
      [("1a1a1a1", 0), ("2b2b2b2", 1), ("3c3c3c3", 1)]) := by decide

/-- C4 amended: a column assignment to a commit id is re-written whenever
a later commit of the window lists that id as a parent; when no commit of
the remaining window lists the id as a parent, the assignment made during
the prefix is never changed, and the id's own node (if created in the
remainder) uses exactly that column. -/
theorem column_assignment_stable (bm rm tm : List (String × List String))
    (cs1 cs2 : List RawCommit) (X : String) (col : Nat)
    (hassigned : List.lookup X (layoutGraph cs1 bm rm tm).sha_to_column = some col)
    (hnolater : ∀ cr ∈ cs2, X ∉ cr.parents) :
    List.lookup X (layoutGraph (cs1 ++ cs2) bm rm tm).sha_to_column = some col ∧
    ∀ n ∈ (layoutGraph (cs1 ++ cs2) bm rm tm).nodes,
      n ∈ (layoutGraph cs1 bm rm tm).nodes ∨
        (n.commit.sha = X → n.column = col) := by
  rw [layoutGraph, layoutGo_append, Nat.zero_add]
  exact layoutGo_column_stable bm rm tm cs2 cs1.length
    (layoutGraph cs1 bm rm tm) X col hassigned hnolater

/-- Child commit reserving its parent's lane, for the C4 witness. -/
def rcStabV : RawCommit :=
  { sha := "4d4d4d4", message := some "only child", author := some "fred",
    email := some "f@example.com", time := 2, parents := ["5e5e5e5"] }

/-- Parent commit reusing the reserved lane, for the C4 witness. -/
def rcStabW : RawCommit :=
  { sha := "5e5e5e5", message := some "stable base", author := some "fred",
    email := some "f@example.com", time := 1, parents := [] }

theorem column_assignment_stable_witness :
    List.lookup "5e5e5e5"
        (layoutGraph ([rcStabV] ++ [rcStabW]) [] [] []).sha_to_column = some 0 :=
  (column_assignment_stable [] [] [] [rcStabV] [rcStabW] "5e5e5e5" 0
    (by decide) (by decide)).1

/-- C5: in every layout result, `max_column` equals the maximum column
value appearing across all nodes (`column`) and all edges (`from_column`
and `to_column`), and it equals 0 when the node list is empty. -/
theorem max_column_eq_maxList (cs : List RawCommit)
    (bm rm tm : List (String × List String)) :
    (layoutGraph cs bm rm tm).max_column =
      maxList (colsOf (layoutGraph cs bm rm tm)) ∧
    ((layoutGraph cs bm rm tm).nodes = [] →
      (layoutGraph cs bm rm tm).max_column = 0) := by
  constructor
  · exact layoutGo_maxOk bm rm tm cs 0 initLayout rfl
  · intro h
    have hlen := layoutGo_nodes_length bm rm tm cs 0 initLayout
    rw [layoutGraph] at h
    rw [h] at hlen
    simp only [List.length_nil, List.length_nil, Nat.zero_add] at hlen
    have hcs : cs = [] := List.eq_nil_of_length_eq_zero (by omega)
    subst hcs
    rfl

theorem max_column_eq_maxList_witness :
    (layoutGraph [] [] [] []).max_column = 0 :=
  (max_column_eq_maxList [] [] [] []).2 rfl

/-- First child of the reservation-overwrite scenario for C6. -/
def rcResF : RawCommit :=
  { sha := "6f6f6f6", message := some "first tip", author := some "gail",
    email := some "g@example.com", time := 3, parents := ["8h8h8h8"] }

/-- Second child of the reservation-overwrite scenario for C6. -/
def rcResG : RawCommit :=
  { sha := "7g7g7g7", message := some "second tip", author := some "hank",
    email := some "h@example.com", time := 2, parents := ["8h8h8h8"] }

/-- Shared parent of the reservation-overwrite scenario for C6. -/
def rcResH : RawCommit :=
  { sha := "8h8h8h8", message := some "their base", author := some "gail",
    email := some "g@example.com", time := 1, parents := [] }

/-- Layout of the reservation-overwrite window. -/
def scenarioReuse : LayoutState := layoutGraph [rcResF, rcResG, rcResH] [] [] []

/-- C6 counterexample: the first-parent edge of commit F marks lane 0 as
expecting parent H (the edge records `to_column = 0`), yet when H is later
visited in the same window it does not reuse column 0 — a second child G
re-reserved H at column 1 and H's node is created there. -/
theorem first_parent_reuse_counterexample :
    (scenarioReuse.edges.map (fun e => (e.from_sha, e.to_sha, e.to_column)) =
      [("6f6f6f6", "8h8h8h8", 0), ("7g7g7g7", "8h8h8h8", 1)]) ∧
    (scenarioReuse.nodes.map (fun n => (n.commit.sha, n.column)) =
      [("6f6f6f6", 0), ("7g7g7g7", 1), ("8h8h8h8", 1)]) := by decide

/-- C6 amended: for every commit of the window with at least one parent,
the edge to its first parent has `to_column` equal to `from_column` (the
lane is marked as expecting that parent, but the parent reuses the column
of its most recent reservation, which may come from a later child). -/
theorem first_parent_edge_same_column (cs : List RawCommit)
    (bm rm tm : List (String × List String)) (c : RawCommit) (p : String)
    (ps : List String) (hc : c ∈ cs) (hp : c.parents = p :: ps) :
    ∃ e ∈ (layoutGraph cs bm rm tm).edges,
      e.from_sha = c.sha ∧ e.to_sha = p ∧ e.to_column = e.from_column :=
  layoutGo_first_parent bm rm tm cs 0 initLayout c p ps hc hp

theorem first_parent_edge_same_column_witness :
    ∃ e ∈ (layoutGraph [rcStabV] [] [] []).edges,
      e.from_sha = rcStabV.sha ∧ e.to_sha = "5e5e5e5" ∧
      e.to_column = e.from_column :=
  first_parent_edge_same_column [rcStabV] [] [] [] rcStabV "5e5e5e5" []
    (by decide) (by decide)

/-- Window commit returned for the first walk item in the C7 scenario. -/
def rcWalkA : RawCommit :=
  { sha := "9i9i9i9", message := some "newest", author := some "iris",
    email := some "i@example.com", time := 3, parents := [] }

/-- Window commit returned for the third walk item in the C7 scenario. -/
def rcWalkC : RawCommit :=
  { sha := "0j0j0j0", message := some "older", author := some "iris",
    email := some "i@example.com", time := 1, parents := [] }

/-- Backend whose walk yields three oids of which the middle one fails
commit lookup, for the C7 counterexample. -/
def badLookupBackend : Backend :=
  { revwalkNew := .ok (), setSorting := .ok (), pushHead := .ok (),
    localBranches := .ok [], remoteBranches := .ok [], tagEntries := .ok [],
    walkOids := [.ok "9i9i9i9", .ok "badbad1", .ok "0j0j0j0"],
    findCommit := fun s =>
      if s = "9i9i9i9" then some rcWalkA
      else if s = "0j0j0j0" then some rcWalkC
      else none }

/-- C7 counterexample: with `limit = 2`, `offset = 0` and a walk of three
oids whose middle lookup fails, `build` stops after visiting two items and
returns a single commit — it does not keep walking until two commits are
collected, even though a third, findable commit remains in the walk. -/
theorem build_window_short_on_failed_lookup :
    (build badLookupBackend 2 0).map
        (fun g => g.nodes.map (fun n => n.commit.sha)) =
      Except.ok ["9i9i9i9"] ∧
    badLookupBackend.findCommit "0j0j0j0" = some rcWalkC := ⟨rfl, rfl⟩

/-- C7 amended: `build`'s collection loop skips the first `offset` visited
walk items and then considers only the next `limit` visited items (it
breaks at item index `offset + limit`); within that window an errored walk
item or a failed commit lookup is skipped without aborting, so fewer than
`limit` commits may be collected even when more valid commits follow. -/
theorem collectCommits_eq_window_filterMap (walk : List (Except String String))
    (find : String → Option RawCommit) (limit offset : Nat) :
    collectCommits walk find limit offset =
      ((walk.drop offset).take limit).filterMap
        (fun r => match r with | .ok oid => find oid | .error _ => none) := by
  rw [collectCommits, collectGo_spec]
  have h1 : offset - 0 = offset := by omega
  have h2 : offset + limit - max 0 offset = limit := by omega
  rw [h1, h2, List.nil_append]

/-- C8: the in-memory search over loaded nodes coincides with its
specification: for a non-empty query it returns, in original node order
and truncated to the cap, exactly the commits whose message or author
contains the query case-insensitively or whose full or short identifier
starts with it; for the empty query it returns the empty list. -/
theorem searchCommits_eq_searchSpec (g : CommitGraphData) (query : String)
    (limit : Nat) :
    searchCommits (some g) query limit = searchSpec query limit g.nodes := by
  by_cases hq : query = ""
  · subst hq
    rfl
  · rw [searchCommits_unfold_ne g query limit hq, searchSpec, if_neg hq,
      List.filter_map, List.map_take]
    rfl

/-- C9: the layout is deterministic — it depends on the reference maps
only through their lookups, so two runs over the same ordered commit
sequence with lookup-equal reference maps produce identical nodes, edges,
and max_column (and in particular identical column, row, color and
edge_type assignments); with literally equal maps this is reflexivity. -/
theorem layout_deterministic_of_lookup_eq (cs : List RawCommit)
    (bm1 bm2 rm1 rm2 tm1 tm2 : List (String × List String))
    (hb : ∀ k, mmLookup bm1 k = mmLookup bm2 k)
    (hr : ∀ k, mmLookup rm1 k = mmLookup rm2 k)
    (ht : ∀ k, mmLookup tm1 k = mmLookup tm2 k) :
    layoutGraph cs bm1 rm1 tm1 = layoutGraph cs bm2 rm2 tm2 :=
  layoutGo_congr bm1 bm2 rm1 rm2 tm1 tm2 hb hr ht cs 0 initLayout

theorem layout_deterministic_of_lookup_eq_witness :
    layoutGraph [rcDivC, rcDivE, rcDivB] [("bbbbbbb", ["main"])] [] [] =
      layoutGraph [rcDivC, rcDivE, rcDivB] [("bbbbbbb", ["main"])] [] [] :=
  layout_deterministic_of_lookup_eq [rcDivC, rcDivE, rcDivB]
    [("bbbbbbb", ["main"])] [("bbbbbbb", ["main"])] [] [] [] []
    (fun _ => rfl) (fun _ => rfl) (fun _ => rfl)

/-- C10: every edge is consistent with its child node — some node of the
same layout carries the edge's `from_sha`, and its column, row and color
equal the edge's `from_column`, `from_row` and `color`, the color being
the palette color of that node's column. -/
theorem edge_child_node_consistent (cs : List RawCommit)
    (bm rm tm : List (String × List String)) :
    ∀ e ∈ (layoutGraph cs bm rm tm).edges,
      ∃ n ∈ (layoutGraph cs bm rm tm).nodes,
        n.commit.sha = e.from_sha ∧ n.column = e.from_column ∧
        n.row = e.from_row ∧ n.color = e.color ∧ n.color = colorOf n.column :=
  layoutGo_edgeNodeOk bm rm tm cs 0 initLayout
    (fun _ h => absurd h (List.not_mem_nil _))

theorem edge_child_node_consistent_witness :
    ∃ n ∈ scenarioDiverge.nodes,
      n.commit.sha = (scenarioDiverge.edges.headD dummyEdge).from_sha ∧
      n.column = (scenarioDiverge.edges.headD dummyEdge).from_column ∧
      n.row = (scenarioDiverge.edges.headD dummyEdge).from_row ∧
      n.color = (scenarioDiverge.edges.headD dummyEdge).color ∧
      n.color = colorOf n.column :=
  edge_child_node_consistent [rcDivC, rcDivE, rcDivB] [] [] []
    (scenarioDiverge.edges.headD dummyEdge) (by decide)

end Awabancha
